import Mathlib

/-!
Verification of the lattice-converter core (`latticeconverter/convert.py`,
`latticeconverter/io.py`, `latticeconverter/utils.py`) via a shallow
embedding.  Python dicts are embedded as insertion-ordered association
lists with unique keys, floats as exact rationals, in-place mutation as
explicit state passing, and raised exceptions as `Except` values.
-/

namespace LatticeConverter

/-- Association-list lookup, first match wins (Python `d[k]` / `d.get(k)`). -/
def alookup {α : Type} : List (String × α) → String → Option α
  | [], _ => none
  | (k, v) :: rest, key => if k = key then some v else alookup rest key

/-- Python `d[k] = v` on a unique-key dict: replace the first binding of `k`
in place (keeping its position, as Python dicts do), or append at the end
if `k` is absent. -/
def dictInsert {α : Type} : List (String × α) → String → α → List (String × α)
  | [], k, v => [(k, v)]
  | p :: rest, k, v => if p.1 = k then (k, v) :: rest else p :: dictInsert rest k v

/-- Python `a.update(b)`: assign every binding of `b` into `a` in order
(`b`'s value wins on key collision). -/
def dictUpdate {α : Type} (a b : List (String × α)) : List (String × α) :=
  b.foldl (fun acc kv => dictInsert acc kv.1 kv.2) a

theorem alookup_dictInsert_self {α : Type} (d : List (String × α)) (k : String)
    (v : α) : alookup (dictInsert d k v) k = some v := by
  induction d with
  | nil => simp [dictInsert, alookup]
  | cons p rest ih =>
    by_cases h : p.1 = k
    · simp [dictInsert, h, alookup]
    · simp [dictInsert, h, alookup, ih]

theorem alookup_dictInsert_ne {α : Type} (d : List (String × α)) (k k' : String)
    (v : α) (h : k' ≠ k) : alookup (dictInsert d k v) k' = alookup d k' := by
  induction d with
  | nil =>
    simp only [dictInsert, alookup]
    rw [if_neg (Ne.symm h)]
  | cons p rest ih =>
    by_cases hp : p.1 = k
    · simp only [dictInsert, if_pos hp, alookup]
      rw [if_neg (Ne.symm h), if_neg (fun hh => Ne.symm h (hp.symm.trans hh))]
    · simp only [dictInsert, if_neg hp, alookup]
      by_cases hp' : p.1 = k'
      · rw [if_pos hp', if_pos hp']
      · rw [if_neg hp', if_neg hp', ih]

/-- The character of a decimal digit `d < 10`, as Python `str` prints it. -/
def digitChar (d : Nat) : Char := Char.ofNat (48 + d)

/-- Decimal digits of `n`, most significant first; `fuel` bounds the
recursion depth and any `fuel > n` computes the digits exactly. -/
def natStrAux : Nat → Nat → List Char
  | 0, _ => []
  | fuel + 1, n =>
    if n < 10 then [digitChar n]
    else natStrAux fuel (n / 10) ++ [digitChar (n % 10)]

/-- Decimal representation of a natural number (Python `str(n)`, `n ≥ 0`). -/
def natStr (n : Nat) : String := ⟨natStrAux (n + 1) n⟩

/-- Value of a decimal digit string, used to invert `natStr`. -/
def decVal (cs : List Char) : Nat :=
  cs.foldl (fun a c => a * 10 + (c.toNat - 48)) 0

theorem decVal_snoc (cs : List Char) (c : Char) :
    decVal (cs ++ [c]) = decVal cs * 10 + (c.toNat - 48) := by
  simp [decVal, List.foldl_append]

theorem digitChar_toNat : ∀ d, d < 10 → (digitChar d).toNat = 48 + d := by decide

theorem decVal_foldl_digit (a : Nat) (cs : List Char) :
    List.foldl (fun a c => a * 10 + (c.toNat - 48)) a cs =
      a * 10 ^ cs.length + decVal cs := by
  induction cs generalizing a with
  | nil => simp [decVal]
  | cons c rest ih =>
    simp only [List.foldl_cons, decVal, List.length_cons]
    rw [ih, ih (0 * 10 + (c.toNat - 48))]
    ring

theorem decVal_natStrAux (fuel : Nat) : ∀ n, n < fuel →
    decVal (natStrAux fuel n) = n := by
  induction fuel with
  | zero => intro n h; omega
  | succ fuel ih =>
    intro n h
    by_cases h10 : n < 10
    · simp [natStrAux, h10, decVal, digitChar_toNat n h10]
    · have hdiv : n / 10 < fuel := by
        have : n / 10 < n := Nat.div_lt_self (by omega) (by omega)
        omega
      have hmod : n % 10 < 10 := Nat.mod_lt _ (by omega)
      simp only [natStrAux, if_neg h10]
      rw [decVal_snoc, ih _ hdiv, digitChar_toNat _ hmod]
      have := Nat.div_add_mod n 10
      omega

theorem natStr_injective : ∀ a b, natStr a = natStr b → a = b := by
  intro a b h
  have hdata : natStrAux (a + 1) a = natStrAux (b + 1) b :=
    congrArg String.data h
  have ha := decVal_natStrAux (a + 1) a (Nat.lt_succ_self a)
  have hb := decVal_natStrAux (b + 1) b (Nat.lt_succ_self b)
  rw [← ha, ← hb, hdata]

/-- The name of the `k`-th synthetic drift: `"drift_" + str(drift_nbr)`. -/
def driftName (k : Nat) : String := "drift_" ++ natStr k

theorem driftName_injective : ∀ a b, driftName a = driftName b → a = b := by
  intro a b h
  apply natStr_injective
  have hdata : ("drift_".data ++ (natStr a).data) = ("drift_".data ++ (natStr b).data) :=
    congrArg String.data h
  exact congrArg String.mk (List.append_cancel_left hdata)

/-! ## Data model

An element is a pair of a type name and an attribute dict (Python
`elements[name] = [type, {attr: value}]`); attribute values are embedded
as exact rationals. -/

abbrev Attrs := List (String × Rat)

abbrev Elem := String × Attrs

abbrev Elements := List (String × Elem)

/-- The exceptions the embedded code can raise.  `outOfFuel` is an
artifact of the bounded recursion used for `sort_lattices`; sufficient
fuel is always supplied by the wrapper. -/
inductive PyErr
  | elementsOverlap (name : String) (pos : Rat)
  | keyError (key : String)
  | indexError
  | typeError
  | outOfFuel
  deriving DecidableEq

/-- The drift-generation tolerance of `seq2line` (utils.py line 130). -/
def threshold : Rat := 1 / 1000000

/-! ## Geometry reconciler: seq2line and line2seq (utils.py) -/

/-- Loop of `seq2line` (utils.py lines 133-178).  The elements dict is
threaded explicitly because the Python code mutates it in place; the first
component is the returned name list or the raised exception, the second
the final state of the elements dict.  Note that when the distance is
exactly `± threshold` none of the three Python branches fires and the
loop silently skips the element. -/
def seq2lineAux : List (String × Rat) → Nat → Rat → Elements →
    (Except PyErr (List String)) × Elements
  | [], _, _, els => (Except.ok [], els)
  | (elem, pos) :: rest, driftNbr, elemExit, els =>
    match alookup els elem with
    | none => (Except.error (PyErr.keyError elem), els)
    | some (_, attrs) =>
      match alookup attrs "length" with
      | none => (Except.error (PyErr.keyError "length"), els)
      | some elemLength =>
        let elemEntrance := pos - elemLength / 2
        let distance := elemEntrance - elemExit
        if |distance| < threshold then
          let r := seq2lineAux rest driftNbr (elemExit + elemLength) els
          (r.1.map (fun ns => elem :: ns), r.2)
        else if distance < -threshold then
          (Except.error (PyErr.elementsOverlap elem pos), els)
        else if threshold < distance then
          let newDrift := driftName driftNbr
          let els1 := dictInsert els newDrift ("Drift", [("length", distance)])
          let r := seq2lineAux rest (driftNbr + 1) (elemExit + distance + elemLength) els1
          (r.1.map (fun ns => newDrift :: elem :: ns), r.2)
        else
          seq2lineAux rest driftNbr elemExit els

/-- Embedding of `seq2line(sequence, elements)` (utils.py lines 97-178). -/
def seq2line (sequence : List (String × Rat)) (elements : Elements) :
    (Except PyErr (List String)) × Elements :=
  seq2lineAux sequence 0 0 elements

/-- Loop of `line2seq` (utils.py lines 199-213), with the running `pos`
made an explicit argument. -/
def line2seqAux : List String → Elements → Rat → Except PyErr (List (String × Rat))
  | [], _, _ => Except.ok []
  | elem :: rest, elements, pos =>
    match alookup elements elem with
    | none => Except.error (PyErr.keyError elem)
    | some (ty, attrs) =>
      match alookup attrs "length" with
      | none => Except.error (PyErr.keyError "length")
      | some l =>
        if ty = "Drift" then line2seqAux rest elements (pos + l)
        else
          (line2seqAux rest elements (pos + l)).map
            (fun tail => (elem, pos + l / 2) :: tail)

/-- Embedding of `line2seq(sequence, elements)` (utils.py lines 180-214). -/
def line2seq (sequence : List String) (elements : Elements) :
    Except PyErr (List (String × Rat)) :=
  line2seqAux sequence elements 0

/-- Executable check that every pair of the sequence falls into one of the
two productive branches of `seq2line` (adjacent, `|gap| < threshold`, or
drift, `gap > threshold`) with respect to the given elements table. -/
def seqClassOk : List (String × Rat) → Rat → Elements → Bool
  | [], _, _ => true
  | (elem, pos) :: rest, elemExit, els =>
    match alookup els elem with
    | none => false
    | some (_, attrs) =>
      match alookup attrs "length" with
      | none => false
      | some l =>
        let d := pos - l / 2 - elemExit
        if |d| < threshold then seqClassOk rest (elemExit + l) els
        else if threshold < d then seqClassOk rest (elemExit + d + l) els
        else false

/-! ## Data model: commands, lattices, canonical record, raw record -/

/-- A foreign-format command `(keyword, target, [(attr, value), …])`. -/
structure Command where
  keyword : String
  target : String
  attrs : List (String × Rat)
  deriving DecidableEq

/-- The value stored under a name in the `lattices` dict: a line is a list
of child names; a parsed MADX sequence is a list of `(name, center)` pairs
(the Python code stores both shapes in the same dict). -/
inductive LatVal
  | line (children : List String)
  | seqp (pairs : List (String × Rat))
  deriving DecidableEq

abbrev Lattices := List (String × LatVal)

/-- The canonical LatticeJSON record built by `_map_names`. -/
structure LatticeJson where
  title : String
  root : String
  elements : Elements
  lattices : Lattices
  commands : List Command
  deriving DecidableEq

/-- Raw parser output (the record produced by `parse_madx`/`parse_elegant`):
element values are `[foreign_type, {foreign_attr: value}]` pairs. -/
structure RawRecord where
  title : Option String
  root : Option String
  elements : Elements
  lattices : Lattices
  commands : List Command
  deriving DecidableEq

/-! ## Lattice topological sorter (utils.py sort_lattices) -/

/-- The values iterated by `for child in lattices[name]`: for a line these
are its child names; for a sequence entry the iterated values are pairs,
which are never members of the string set `lattices_set`, so the loop
body skips them exactly as it skips element names. -/
def childNames : LatVal → List String
  | .line cs => cs
  | .seqp _ => []

/-- Python `set.remove`: raises `KeyError` when the name is absent. -/
def setRemove (set : List String) (name : String) : Except PyErr (List String) :=
  if name ∈ set then Except.ok (set.erase name) else Except.error (PyErr.keyError name)

/-- The recursive `_sort_lattices` helper (utils.py lines 27-32), with the
visited set and output dict threaded explicitly and Python set iteration
modelled in insertion order.  `fuel` bounds the recursion depth; every
visit removes one name from the set, so any fuel exceeding the set size
is sufficient and the `outOfFuel` artifact is never reached through the
wrappers below. -/
def sortVisit (lat : Lattices) :
    Nat → String → List String → Lattices → Except PyErr (List String × Lattices)
  | 0, _, _, _ => Except.error PyErr.outOfFuel
  | fuel + 1, name, set, acc => do
    let set1 ← setRemove set name
    match alookup lat name with
    | none => Except.error (PyErr.keyError name)
    | some latval => do
      let r ← (childNames latval).foldlM
        (fun (p : List String × Lattices) child =>
          if child ∈ p.1 then sortVisit lat fuel child p.1 p.2 else pure p)
        (set1, acc)
      pure (r.1, r.2 ++ [(name, latval)])

/-- The `keep_unused` loop (utils.py lines 36-37).  Python `set.pop()`
removes and returns an arbitrary element, modelled as the first one; note
the popped name is already removed from the set when `_sort_lattices`
immediately tries to remove it again. -/
def sortRemaining (lat : Lattices) :
    Nat → List String → Lattices → Except PyErr (List String × Lattices)
  | 0, _, _ => Except.error PyErr.outOfFuel
  | fuel + 1, set, acc =>
    match set with
    | [] => Except.ok ([], acc)
    | name :: rest => do
      let r ← sortVisit lat (rest.length + 1) name rest acc
      sortRemaining lat fuel r.1 r.2

/-- Embedding of `sort_lattices(latticejson, root=None, keep_unused=False)`
(utils.py lines 21-41).  The `warn` calls for discarded unused lattices
are a non-fatal diagnostic side channel and are not modelled. -/
def sort_lattices (latticejson : LatticeJson) (root : Option String)
    (keep_unused : Bool) : Except PyErr Lattices := do
  let lattices := latticejson.lattices
  let set0 := lattices.map Prod.fst
  let start := match root with | some r => r | none => latticejson.root
  let r ← sortVisit lattices (set0.length + 1) start set0 []
  if keep_unused then
    let r2 ← sortRemaining lattices (r.1.length + 1) r.1 r.2
    pure r2.2
  else
    pure r.2

/-! ## Vocabulary reconciler (convert.py _map_names) -/

/-- The non-fatal diagnostics emitted by `_map_names`. -/
inductive Warning
  | unknownElementType (name ty : String)
  | unknownAttribute (attr name : String)
  deriving DecidableEq

/-- A foreign-to-canonical (or canonical-to-foreign) name table such as
`FROM_MADX`; the actual table is loaded from the bundled `map.json`, so
it is a parameter here. -/
abbrev NameMap := List (String × String)

/-- Alias resolution (convert.py lines 97-101): when the declared type is
the name of another declared element, take that element's type and update
the current attribute dict with the referenced element's attributes
(Python `other_attributes.update(additional_attributes)`: the referenced
element's value wins on key collision). -/
def resolveAlias (raw : Elements) (otype : String) (oattrs : Attrs) : String × Attrs :=
  match alookup raw otype with
  | some (t2, add) => (t2, dictUpdate oattrs add)
  | none => (otype, oattrs)

/-- The attribute-translation loop of `_map_names` (convert.py lines
117-122): mapped keys are assigned into the output dict, unmapped keys
emit an `UnknownAttributeWarning` and are dropped. -/
def mapAttrs (nm : NameMap) (name : String) (rattrs : Attrs) : Attrs × List Warning :=
  rattrs.foldl
    (fun (p : Attrs × List Warning) kv =>
      match alookup nm kv.1 with
      | some k2 => (dictInsert p.1 k2 kv.2, p.2)
      | none => (p.1, p.2 ++ [Warning.unknownAttribute kv.1 name]))
    ([], [])

/-- The body of the `_map_names` element loop for one element (convert.py
lines 95-122).  Returns the updated raw elements dict (alias resolution
mutates the current element's stored attribute dict in place, keeping its
stored type name), the produced canonical entry, and the warnings. -/
def processElem (nm : NameMap) (raw : Elements) (name : String) :
    Elements × Option (String × Elem) × List Warning :=
  match alookup raw name with
  | none => (raw, none, [])
  | some (otype, oattrs) =>
    let rt := resolveAlias raw otype oattrs
    let raw' :=
      match alookup raw otype with
      | some _ => dictInsert raw name (otype, rt.2)
      | none => raw
    match alookup nm rt.1 with
    | none =>
      (raw', some (name, ("Drift", [("length", (alookup rt.2 "L").getD 0)])),
        [Warning.unknownElementType name rt.1])
    | some ljt =>
      if rt.2 = [] then (raw', some (name, (ljt, [("length", 0)])), [])
      else
        let aw := mapAttrs nm name rt.2
        (raw', some (name, (ljt, aw.1)), aw.2)

/-- Iteration of the `_map_names` element loop over the element names in
dict order, threading the mutated raw dict, the output dict, and the
warning list. -/
def mapElemsAux (nm : NameMap) :
    List String → Elements → Elements → List Warning →
    Elements × Elements × List Warning
  | [], raw, out, ws => (raw, out, ws)
  | name :: rest, raw, out, ws =>
    let r := processElem nm raw name
    mapElemsAux nm rest r.1
      (match r.2.1 with
       | some e => dictInsert out e.1 e.2
       | none => out)
      (ws ++ r.2.2)

/-- The state of the input record's elements dict after `_map_names`
returns (the Python loop mutates it in place). -/
def mapNamesRawAfter (record : RawRecord) (nm : NameMap) : Elements :=
  (mapElemsAux nm (record.elements.map Prod.fst) record.elements [] []).1

/-- The canonical elements dict built by `_map_names`. -/
def mapNamesElems (record : RawRecord) (nm : NameMap) : Elements :=
  (mapElemsAux nm (record.elements.map Prod.fst) record.elements [] []).2.1

/-- The warnings emitted by `_map_names`. -/
def mapNamesWarnings (record : RawRecord) (nm : NameMap) : List Warning :=
  (mapElemsAux nm (record.elements.map Prod.fst) record.elements [] []).2.2

/-- Embedding of `_map_names(lattice_data, name_map)` (convert.py lines
75-135).  Python evaluates the default argument of
`lattice_data.get("root", tuple(lattices.keys())[-1])` eagerly, so an
empty `lattices` dict raises `IndexError` even when a root is present. -/
def map_names (record : RawRecord) (nm : NameMap) :
    Except PyErr (LatticeJson × List Warning) :=
  match (record.lattices.map Prod.fst).getLast? with
  | none => Except.error PyErr.indexError
  | some lastKey =>
    Except.ok
      ({ title := record.title.getD "", root := record.root.getD lastKey,
         elements := mapNamesElems record nm, lattices := record.lattices,
         commands := record.commands }, mapNamesWarnings record nm)

/-- Embedding of `from_madx` (convert.py lines 42-73), taking the parsed
raw record (the external parser's output) and the `FROM_MADX` table as
parameters.  `list(zip(*commands))[0]` is the tuple of command keywords
and raises `IndexError` when `commands` is empty; `list(zip(*commands))[1][0]`
is the first command's target name. -/
def from_madx (nm : NameMap) (record : RawRecord) :
    Except PyErr (LatticeJson × List Warning) := do
  let r ← map_names record nm
  let lj := r.1
  match lj.commands with
  | [] => Except.error PyErr.indexError
  | c0 :: crest =>
    if ((c0 :: crest).map Command.keyword).contains "sequence" then
      match alookup lj.lattices c0.target with
      | none => Except.error (PyErr.keyError c0.target)
      | some (LatVal.line _) => Except.error PyErr.typeError
      | some (LatVal.seqp pairs) =>
        let s := seq2line pairs lj.elements
        match s.1 with
        | Except.error e => Except.error e
        | Except.ok newSeq =>
          Except.ok
            ({ lj with
                elements := s.2
                lattices := dictInsert lj.lattices c0.target (LatVal.line newSeq) },
              r.2)
    else Except.ok (lj, r.2)

/-! ## MADX emitter (convert.py to_madx) -/

/-- One rendered statement of the MADX emitter.  String formatting of
numeric values is abstracted: each statement records the data that
`to_madx` interpolates into its template. -/
inductive MadxStmt
  | element (name madxType : String) (attrs : List (String × Rat))
  | seqHeader (name : String) (attrs : List (String × Rat))
  | atPos (name : String) (pos : Rat)
  | endSequence
  | titleStmt (t : String)
  | lineDef (name : String) (children : List String)
  | useSeq (root : String)
  deriving DecidableEq

/-- Rendering of one element (convert.py lines 195-201): every attribute
key is translated through `TO_MADX` (a missing key raises `KeyError`
inside the join on line 196), then the element type (line 197). -/
def renderElem (toMap : NameMap) (name : String) (el : Elem) :
    Except PyErr MadxStmt := do
  let attrs ← el.2.mapM (fun kv =>
    match alookup toMap kv.1 with
    | some k2 => Except.ok (k2, kv.2)
    | none => Except.error (PyErr.keyError kv.1))
  match alookup toMap el.1 with
  | some t2 => Except.ok (MadxStmt.element name t2 attrs)
  | none => Except.error (PyErr.keyError el.1)

/-- Embedding of `to_madx(latticejson)` (convert.py lines 172-239) with
the `TO_MADX` table passed as a parameter.  In the line-format branch the
`USE` statement is emitted inside the loop, once per sorted lattice,
exactly as in the source; joining a sequence-shaped lattice value raises
`TypeError` in Python. -/
def to_madx (toMap : NameMap) (lj : LatticeJson) : Except PyErr (List MadxStmt) := do
  let elemStmts ← lj.elements.mapM (fun p => renderElem toMap p.1 p.2)
  match lj.commands with
  | [] => Except.error PyErr.indexError
  | c0 :: crest =>
    if ((c0 :: crest).map Command.keyword).contains "sequence" then do
      let seqBody ←
        match alookup lj.lattices lj.root with
        | none => Except.error (PyErr.keyError lj.root)
        | some (LatVal.seqp _) => Except.error PyErr.typeError
        | some (LatVal.line names) => line2seq names lj.elements
      Except.ok (elemStmts ++ [MadxStmt.seqHeader c0.target c0.attrs]
        ++ seqBody.map (fun p => MadxStmt.atPos p.1 p.2) ++ [MadxStmt.endSequence])
    else do
      let sorted ← sort_lattices lj none false
      let latStmts ← sorted.mapM (fun p =>
        match p.2 with
        | LatVal.line cs =>
          Except.ok [MadxStmt.lineDef p.1 cs, MadxStmt.useSeq lj.root]
        | LatVal.seqp _ => Except.error PyErr.typeError)
      Except.ok (elemStmts ++ [MadxStmt.titleStmt lj.title] ++ latStmts.flatten)

/-! ## Driver dispatch (io.py) -/

/-- The converter selected by the `load_string`/`save_string` dispatch, or
the raised `NotImplementedError` with its message. -/
inductive Dispatch
  | handled (converter : String)
  | notImplementedFault (msg : String)
  deriving DecidableEq

/-- Which branch of `load_string(string, input_format, validate)` handles
each input format (io.py lines 50-62). -/
def load_string (input_format : String) : Dispatch :=
  if input_format = "json" then Dispatch.handled "json.loads"
  else if input_format = "madx" then Dispatch.handled "convert.from_madx"
  else if input_format = "elegant" then Dispatch.handled "convert.from_elegant"
  else Dispatch.notImplementedFault
    ("Unknown lattice file format: " ++ input_format ++ ".")

/-- Which branch of `save_string(latticejson, output_format)` handles each
output format (io.py lines 125-133). -/
def save_string (output_format : String) : Dispatch :=
  if output_format = "json" then Dispatch.handled "format_json"
  else if output_format = "madx" then Dispatch.handled "convert.to_madx"
  else if output_format = "elegant" then Dispatch.handled "convert.to_elegant"
  else if output_format = "pyat" then Dispatch.handled "convert.to_pyat"
  else Dispatch.notImplementedFault
    ("Converting to " ++ output_format ++ " is not implemented!")

/-- Whether a dispatch reached a converter (rather than raising
`NotImplementedError`). -/
def Dispatch.isHandled : Dispatch → Bool
  | handled _ => true
  | notImplementedFault _ => false

/-! ## Concrete fixtures used by the claims -/

/-- A small foreign-to-canonical table: type `T ↦ CanonT`, attribute
`K1 ↦ k1`, attribute `x ↦ cx`. -/
def nmEx : NameMap := [("T", "CanonT"), ("K1", "k1"), ("x", "cx")]

/-- Raw record with an element alias carrying a conflicting attribute:
`A: T, K1=1` and `B: A, K1=2`. -/
def recAlias : RawRecord :=
  { title := none, root := none,
    elements := [("A", ("T", [("K1", 1)])), ("B", ("A", [("K1", 2)]))],
    lattices := [("l", LatVal.line ["A", "B"])], commands := [] }

/-- Raw record with a no-op alias: `A: T` and `B: A`, both without
attributes. -/
def recAliasNoop : RawRecord :=
  { title := none, root := none,
    elements := [("A", ("T", [])), ("B", ("A", []))],
    lattices := [("l", LatVal.line ["A", "B"])], commands := [] }

/-- Chained aliases `A: T, L=7`, `B: A`, `C: B`, with `B` declared before
`C`, so `C` sees the already-merged attributes of `B` (including `L=7`). -/
def recChainBC : RawRecord :=
  { title := none, root := none,
    elements := [("A", ("T", [("L", 7)])), ("B", ("A", [])), ("C", ("B", []))],
    lattices := [("l", LatVal.line ["A"])], commands := [] }

/-- The same bindings as `recChainBC` but with `C` declared before `B`,
so `C` sees the original, not yet merged attributes of `B`. -/
def recChainCB : RawRecord :=
  { title := none, root := none,
    elements := [("A", ("T", [("L", 7)])), ("C", ("B", [])), ("B", ("A", []))],
    lattices := [("l", LatVal.line ["A"])], commands := [] }

/-- A canonical record whose `lattices` contain one lattice unreachable
from the root. -/
def ljUnused : LatticeJson :=
  { title := "", root := "root", elements := [],
    lattices := [("root", LatVal.line []), ("unused", LatVal.line [])],
    commands := [] }

/-- Elements table for the geometry examples: `A.length = 10`,
`B.length = 4`. -/
def elsAB : Elements :=
  [("A", ("Quad", [("length", 10)])), ("B", ("Quad", [("length", 4)]))]

/-- Elements table for the overlap examples: `A.length = 10`,
`B.length = 2`. -/
def elsOverlap : Elements :=
  [("A", ("Quad", [("length", 10)])), ("B", ("Quad", [("length", 2)]))]

/-! ## Claim theorems -/

/-- C1: the claim says the referencing (current) element's attributes take
precedence on key collision during alias resolution.  The code does the
opposite: `other_attributes.update(additional_attributes)` lets the
referenced element's value win.  Here `B: A, K1=2` with `A: T, K1=1`
produces canonical `B` with `k1 = 1`, not `k1 = 2`. -/
theorem c1_alias_merge_referenced_wins :
    mapNamesElems recAlias nmEx =
      [("A", ("CanonT", [("k1", 1)])), ("B", ("CanonT", [("k1", 1)]))] ∧
    alookup recAlias.elements "B" = some ("A", [("K1", 2)]) ∧
    alookup recAlias.elements "A" = some ("T", [("K1", 1)]) := by
  refine ⟨rfl, rfl, rfl⟩

/-- C4: with `keep_unused=True` and any lattice unreachable from the root,
`sort_lattices` raises `KeyError`: the `while` loop pops a name from the
set and `_sort_lattices` immediately tries to remove the popped name
again.  With `keep_unused=False` the same input sorts fine and drops the
unused lattice. -/
theorem c4_sort_lattices_keep_unused_keyerror :
    sort_lattices ljUnused none true = Except.error (PyErr.keyError "unused") ∧
    sort_lattices ljUnused none false = Except.ok [("root", LatVal.line [])] :=
  ⟨rfl, rfl⟩

/-- C8: `load_string` dispatches exactly for `json`, `madx` and `elegant`,
`save_string` exactly for `json`, `madx`, `elegant` and `pyat`, and every
other format identifier (in particular `pyat` on input) raises
`NotImplementedError`. -/
theorem c8_io_dispatch (fmt : String) :
    ((load_string fmt).isHandled = true ↔
      (fmt = "json" ∨ fmt = "madx" ∨ fmt = "elegant")) ∧
    ((save_string fmt).isHandled = true ↔
      (fmt = "json" ∨ fmt = "madx" ∨ fmt = "elegant" ∨ fmt = "pyat")) ∧
    ((load_string fmt).isHandled = false →
      load_string fmt = Dispatch.notImplementedFault
        ("Unknown lattice file format: " ++ fmt ++ ".")) ∧
    ((save_string fmt).isHandled = false →
      save_string fmt = Dispatch.notImplementedFault
        ("Converting to " ++ fmt ++ " is not implemented!")) ∧
    (load_string "pyat").isHandled = false := by
  refine ⟨?_, ?_, ?_, ?_, rfl⟩ <;>
    by_cases h1 : fmt = "json" <;> by_cases h2 : fmt = "madx" <;>
      by_cases h3 : fmt = "elegant" <;> by_cases h4 : fmt = "pyat" <;>
        simp [load_string, save_string, Dispatch.isHandled, h1, h2, h3, h4]

/-- C8 witness: the dispatch theorem applied at the formats `pyat` and
`bmad`. -/
theorem c8_io_dispatch_witness :
    (save_string "pyat").isHandled = true ∧
    (load_string "pyat").isHandled = false ∧
    (load_string "bmad").isHandled = false ∧
    load_string "bmad" = Dispatch.notImplementedFault
      ("Unknown lattice file format: " ++ "bmad" ++ ".") :=
  ⟨(c8_io_dispatch "pyat").2.1.mpr (Or.inr (Or.inr (Or.inr rfl))),
   (c8_io_dispatch "pyat").2.2.2.2,
   rfl, (c8_io_dispatch "bmad").2.2.1 rfl⟩

/-- C9: the in-place mutation of the raw record during alias resolution:
whenever the current element's declared type names another declared
element, the raw elements dict after the step stores the current element
with its attribute dict updated by the referenced element's attributes
(its stored type name unchanged).  The second conjunct shows the input
record's elements mapping differs after `_map_names` when the referenced
element carries a binding the aliasing element lacks, and the third shows
the result for an element aliasing an already-processed alias depends on
dict iteration (insertion) order. -/
theorem c9_mapnames_mutates_raw_in_place :
    (∀ (nm : NameMap) (raw : Elements) (name otype : String) (oattrs : Attrs)
        (t2 : String) (add : Attrs),
      alookup raw name = some (otype, oattrs) →
      alookup raw otype = some (t2, add) →
      (processElem nm raw name).1 = dictInsert raw name (otype, dictUpdate oattrs add)) ∧
    mapNamesRawAfter recAlias nmEx ≠ recAlias.elements ∧
    alookup (mapNamesElems recChainBC nmEx) "C" ≠
      alookup (mapNamesElems recChainCB nmEx) "C" := by
  refine ⟨?_, ?_, ?_⟩
  · intro nm raw name otype oattrs t2 add h1 h2
    simp only [processElem, h1, resolveAlias, h2]
    cases alookup nm t2 <;> simp
    split <;> rfl
  · decide
  · decide

/-- C9 witness: the mutation characterization applied to the concrete
aliasing record `recAlias` at element `B`. -/
theorem c9_mapnames_mutates_raw_in_place_witness :
    (processElem nmEx recAlias.elements "B").1 =
      dictInsert recAlias.elements "B" ("A", dictUpdate [("K1", 2)] [("K1", 1)]) :=
  c9_mapnames_mutates_raw_in_place.1 nmEx recAlias.elements "B" "A"
    [("K1", 2)] "T" [("K1", 1)] rfl rfl

/-- C9 counterexample: a record containing an element alias (`B: A`) for
which `_map_names` leaves the input record's elements mapping unchanged,
because the referenced element has no attributes; the claim's assertion
that the input mapping always differs after the call fails here. -/
theorem c9_mapnames_noop_alias_counterexample :
    mapNamesRawAfter recAliasNoop nmEx = recAliasNoop.elements ∧
    alookup recAliasNoop.elements "B" = some ("A", []) ∧
    alookup recAliasNoop.elements "A" = some ("T", []) :=
  ⟨rfl, rfl, rfl⟩

/-- C10: with an empty parsed `commands` list, `from_madx` raises
`IndexError` (the sequence-detection step indexes `list(zip(*commands))[0]`,
which does not exist) instead of returning a canonical lattice, and
`to_madx` likewise fails on a canonical lattice with empty commands. -/
theorem c10_empty_commands_fail :
    (∀ (nm : NameMap) (record : RawRecord), record.commands = [] →
      from_madx nm record = Except.error PyErr.indexError) ∧
    (∀ (tm : NameMap) (lj : LatticeJson), lj.commands = [] →
      ∃ e, to_madx tm lj = Except.error e) := by
  constructor
  · intro nm record h
    unfold from_madx map_names
    cases hL : (record.lattices.map Prod.fst).getLast? with
    | none => simp [hL, Bind.bind, Except.bind]
    | some k => simp [hL, h, Bind.bind, Except.bind]
  · intro tm lj h
    unfold to_madx
    cases hM : lj.elements.mapM (fun p => renderElem tm p.1 p.2) with
    | error e => exact ⟨e, by simp [hM, Bind.bind, Except.bind]⟩
    | ok stmts => exact ⟨PyErr.indexError, by simp [hM, h, Bind.bind, Except.bind]⟩

/-- A raw record with an empty commands list. -/
def recEmptyCmds : RawRecord :=
  { title := none, root := some "l", elements := [],
    lattices := [("l", LatVal.line [])], commands := [] }

/-- A canonical record with an empty commands list. -/
def ljEmptyCmds : LatticeJson :=
  { title := "", root := "l", elements := [],
    lattices := [("l", LatVal.line [])], commands := [] }

/-- C10 witness: both failure statements applied at concrete records with
empty commands. -/
theorem c10_empty_commands_fail_witness :
    from_madx [] recEmptyCmds = Except.error PyErr.indexError ∧
    ∃ e, to_madx [] ljEmptyCmds = Except.error e :=
  ⟨c10_empty_commands_fail.1 [] recEmptyCmds rfl,
   c10_empty_commands_fail.2 [] ljEmptyCmds rfl⟩

/-! ## Helper lemmas about seq2line -/

theorem threshold_pos : (0 : Rat) < threshold := by norm_num [threshold]

/-- `seq2line` only writes `drift_<k>` entries (with `k` at least the
starting counter and below the counter plus the number of remaining
pairs); every other key of the elements dict keeps its binding, whether
the run succeeds or aborts. -/
theorem seq2lineAux_frame :
    ∀ (seq : List (String × Rat)) (n : Nat) (ex : Rat) (E : Elements) (s : String),
    (∀ k, n ≤ k → k < n + seq.length → s ≠ driftName k) →
    alookup (seq2lineAux seq n ex E).2 s = alookup E s := by
  intro seq
  induction seq with
  | nil => intro n ex E s _; rfl
  | cons p rest ih =>
    obtain ⟨elem, pos⟩ := p
    intro n ex E s hs
    cases h1 : alookup E elem with
    | none => simp [seq2lineAux, h1]
    | some e =>
      obtain ⟨ty, attrs⟩ := e
      cases h2 : alookup attrs "length" with
      | none => simp [seq2lineAux, h1, h2]
      | some l =>
        simp only [seq2lineAux, h1, h2]
        by_cases hb1 : |pos - l / 2 - ex| < threshold
        · rw [if_pos hb1]
          exact ih n (ex + l) E s fun k hk hk2 =>
            hs k hk (by simp only [List.length_cons]; omega)
        · rw [if_neg hb1]
          by_cases hb2 : pos - l / 2 - ex < -threshold
          · rw [if_pos hb2]
          · rw [if_neg hb2]
            by_cases hb3 : threshold < pos - l / 2 - ex
            · rw [if_pos hb3]
              simp only
              rw [ih (n + 1) _ _ s fun k hk hk2 =>
                hs k (by omega) (by simp only [List.length_cons]; omega)]
              exact alookup_dictInsert_ne E (driftName n) s _
                (hs n (by omega) (by simp only [List.length_cons]; omega))
            · rw [if_neg hb3]
              exact ih n ex E s fun k hk hk2 =>
                hs k hk (by simp only [List.length_cons]; omega)

/-- The branch classifier only reads the bindings of the names occurring
in the sequence. -/
theorem seqClassOk_congr :
    ∀ (seq : List (String × Rat)) (ex : Rat) (E E' : Elements),
    (∀ p ∈ seq, alookup E' p.1 = alookup E p.1) →
    seqClassOk seq ex E' = seqClassOk seq ex E := by
  intro seq
  induction seq with
  | nil => intro ex E E' _; rfl
  | cons p rest ih =>
    obtain ⟨elem, pos⟩ := p
    intro ex E E' h
    have he : alookup E' elem = alookup E elem :=
      h (elem, pos) (List.mem_cons_self _ _)
    have hr : ∀ q ∈ rest, alookup E' q.1 = alookup E q.1 :=
      fun q hq => h q (List.mem_cons_of_mem _ hq)
    cases h1 : alookup E elem with
    | none => simp [seqClassOk, he, h1]
    | some e =>
      obtain ⟨ty, attrs⟩ := e
      cases h2 : alookup attrs "length" with
      | none => simp [seqClassOk, he, h1, h2]
      | some l =>
        simp only [seqClassOk, he, h1, h2]
        by_cases hb1 : |pos - l / 2 - ex| < threshold
        · rw [if_pos hb1, if_pos hb1, ih _ E E' hr]
        · rw [if_neg hb1, if_neg hb1]
          by_cases hb3 : threshold < pos - l / 2 - ex
          · rw [if_pos hb3, if_pos hb3, ih _ E E' hr]
          · rw [if_neg hb3, if_neg hb3]

/-- C5: when the entrance gap to the previous exit position exceeds the
tolerance, `seq2line` creates `drift_<counter>` with length equal to the
gap, inserts it into the elements dict, prepends the drift name and the
element name to the remaining output, and continues with the counter
incremented and the exit position advanced by gap plus element length. -/
theorem c5_gap_inserts_drift (els : Elements) (n : Nat) (ex : Rat) (elem : String)
    (pos : Rat) (rest : List (String × Rat)) (ty : String) (attrs : Attrs) (l : Rat)
    (hel : alookup els elem = some (ty, attrs))
    (hlen : alookup attrs "length" = some l)
    (hgap : threshold < pos - l / 2 - ex) :
    seq2lineAux ((elem, pos) :: rest) n ex els =
      (let d := pos - l / 2 - ex
       let r := seq2lineAux rest (n + 1) (ex + d + l)
         (dictInsert els (driftName n) ("Drift", [("length", d)]))
       (r.1.map (fun ns => driftName n :: elem :: ns), r.2)) := by
  have hd1 : ¬ |pos - l / 2 - ex| < threshold :=
    not_lt.mpr (le_trans hgap.le (le_abs_self _))
  have hd2 : ¬ pos - l / 2 - ex < -threshold := by
    have := threshold_pos
    intro hc
    linarith
  simp only [seq2lineAux, hel, hlen]
  rw [if_neg hd1, if_neg hd2, if_pos hgap]

/-- C5 witness: the drift-insertion step applied at the second pair of the
sequence `[("A", 5.0), ("B", 15.0)]` with `A.length = 10`, `B.length = 4`
(after `A` the exit position is 10), together with the full run producing
exactly one drift of length 3 and the output `["A", "drift_0", "B"]`. -/
theorem c5_gap_inserts_drift_witness :
    seq2lineAux [("B", 15)] 0 10 elsAB =
      (let d := (15 : Rat) - 4 / 2 - 10
       let r := seq2lineAux [] (0 + 1) (10 + d + 4)
         (dictInsert elsAB (driftName 0) ("Drift", [("length", d)]))
       (r.1.map (fun ns => driftName 0 :: "B" :: ns), r.2)) ∧
    seq2line [("A", 5), ("B", 15)] elsAB =
      (Except.ok ["A", "drift_0", "B"],
        [("A", ("Quad", [("length", 10)])), ("B", ("Quad", [("length", 4)])),
         ("drift_0", ("Drift", [("length", 3)]))]) :=
  ⟨c5_gap_inserts_drift elsAB 0 10 "B" 15 [] "Quad" [("length", 4)] 4 rfl rfl
      (by norm_num [threshold]),
   by norm_num +decide [seq2line, seq2lineAux, alookup, dictInsert, threshold,
     Except.map, elsAB, show driftName 0 = "drift_0" from rfl]⟩

/-- C6: when the entrance gap to the previous exit position is below minus
the tolerance, `seq2line` raises `ElementsOverlapError` carrying that
element's name and its given position. -/
theorem c6_overlap_raises (els : Elements) (n : Nat) (ex : Rat) (elem : String)
    (pos : Rat) (rest : List (String × Rat)) (ty : String) (attrs : Attrs) (l : Rat)
    (hel : alookup els elem = some (ty, attrs))
    (hlen : alookup attrs "length" = some l)
    (hgap : pos - l / 2 - ex < -threshold) :
    seq2lineAux ((elem, pos) :: rest) n ex els =
      (Except.error (PyErr.elementsOverlap elem pos), els) := by
  have hd1 : ¬ |pos - l / 2 - ex| < threshold := by
    rw [not_lt, le_abs]
    right
    linarith
  simp only [seq2lineAux, hel, hlen]
  rw [if_neg hd1, if_pos hgap]

/-- C6 witness: the overlap step applied at the second pair of the
sequence `[("A", 5.0), ("B", 9.0)]` with `A.length = 10`, `B.length = 2`
(after `A` the exit position is 10), together with the full run raising
`ElementsOverlapError("B", 9.0)`. -/
theorem c6_overlap_raises_witness :
    seq2lineAux [("B", 9)] 0 10 elsOverlap =
      (Except.error (PyErr.elementsOverlap "B" 9), elsOverlap) ∧
    seq2line [("A", 5), ("B", 9)] elsOverlap =
      (Except.error (PyErr.elementsOverlap "B" 9), elsOverlap) :=
  ⟨c6_overlap_raises elsOverlap 0 10 "B" 9 [] "Quad" [("length", 2)] 2 rfl rfl
      (by norm_num [threshold]),
   by norm_num +decide [seq2line, seq2lineAux, alookup, threshold, Except.map,
     elsOverlap]⟩

/-- C3 (amended): when `seq2line` raises `ElementsOverlap` the conversion
aborts with no output list, but the elements dict passed to `seq2line` is
not left unchanged in general: synthetic drifts inserted for gaps
processed before the offending element remain.  Every binding other than
the synthetic `drift_<k>` names is preserved (first conjunct); on the
concrete overlapping input `[("A", 6.0), ("B", 9.0)]` the aborted run has
already inserted `drift_0` of length 1 (remaining conjuncts). -/
theorem c3_abort_keeps_inserted_drifts :
    (∀ (seq : List (String × Rat)) (n : Nat) (ex : Rat) (E : Elements) (s : String),
      (∀ k, n ≤ k → k < n + seq.length → s ≠ driftName k) →
      alookup (seq2lineAux seq n ex E).2 s = alookup E s) ∧
    (seq2line [("A", 6), ("B", 9)] elsOverlap).1 =
      Except.error (PyErr.elementsOverlap "B" 9) ∧
    alookup (seq2line [("A", 6), ("B", 9)] elsOverlap).2 "drift_0" =
      some ("Drift", [("length", 1)]) := by
  refine ⟨seq2lineAux_frame, ?_, ?_⟩ <;>
    norm_num +decide [seq2line, seq2lineAux, alookup, dictInsert, threshold,
      Except.map, elsOverlap, show driftName 0 = "drift_0" from rfl]

/-- C3 witness: the preservation statement applied to the concrete aborted
run, at the untouched key `A`. -/
theorem c3_abort_keeps_inserted_drifts_witness :
    alookup (seq2line [("A", 6), ("B", 9)] elsOverlap).2 "A" = alookup elsOverlap "A" :=
  c3_abort_keeps_inserted_drifts.1 [("A", 6), ("B", 9)] 0 0 elsOverlap "A"
    (by decide)

/-- C3 counterexample: a conversion that raises the fatal
`ElementsOverlap` error but does not leave the elements mapping passed to
`seq2line` unchanged: the first gap already inserted a synthetic drift
before the abort. -/
theorem c3_abort_mutated_elements_counterexample :
    (seq2line [("A", 6), ("B", 9)] elsOverlap).1 =
      Except.error (PyErr.elementsOverlap "B" 9) ∧
    (seq2line [("A", 6), ("B", 9)] elsOverlap).2 ≠ elsOverlap := by
  constructor <;>
    norm_num +decide [seq2line, seq2lineAux, alookup, dictInsert, threshold,
      Except.map, elsOverlap, show driftName 0 = "drift_0" from rfl]

/-! ## The seq2line / line2seq round trip (C2) -/

/-- Main induction for the round trip: if every pair classifies strictly
into the adjacent or the drift branch, no sequence element is Drift-typed,
and neither the elements dict nor the sequence names use the synthetic
drift names about to be generated, then `seq2line` succeeds and `line2seq`
over its output (with the drift-augmented elements dict) reproduces the
sequence names in order with every centre position within the tolerance. -/
theorem seq2line_roundtrip_aux :
    ∀ (seq : List (String × Rat)) (n : Nat) (ex : Rat) (E : Elements),
    seqClassOk seq ex E = true →
    (∀ p ∈ seq, ∀ e : Elem, alookup E p.1 = some e → e.1 ≠ "Drift") →
    (∀ k, n ≤ k → k < n + seq.length → alookup E (driftName k) = none) →
    (∀ p ∈ seq, ∀ k, n ≤ k → k < n + seq.length → p.1 ≠ driftName k) →
    ∃ names, (seq2lineAux seq n ex E).1 = Except.ok names ∧
      ∃ res, line2seqAux names (seq2lineAux seq n ex E).2 ex = Except.ok res ∧
        List.Forall₂ (fun p q => p.1 = q.1 ∧ |q.2 - p.2| ≤ threshold) seq res := by
  intro seq
  induction seq with
  | nil =>
    intro n ex E _ _ _ _
    exact ⟨[], rfl, [], rfl, List.Forall₂.nil⟩
  | cons p rest ih =>
    obtain ⟨elem, pos⟩ := p
    intro n ex E hclass hty hfE hfS
    cases h1 : alookup E elem with
    | none => rw [seqClassOk, h1] at hclass; cases hclass
    | some e =>
      obtain ⟨ty, attrs⟩ := e
      cases h2 : alookup attrs "length" with
      | none => simp only [seqClassOk, h1, h2] at hclass; cases hclass
      | some l =>
        simp only [seqClassOk, h1, h2] at hclass
        have htyhead : ty ≠ "Drift" :=
          hty (elem, pos) (List.mem_cons_self _ _) (ty, attrs) h1
        have hShead : ∀ k, n ≤ k → k < n + rest.length + 1 → elem ≠ driftName k :=
          fun k hk hk2 => hfS (elem, pos) (List.mem_cons_self _ _) k hk
            (by simp only [List.length_cons]; omega)
        by_cases hb1 : |pos - l / 2 - ex| < threshold
        · -- adjacent branch
          rw [if_pos hb1] at hclass
          have hty' : ∀ p ∈ rest, ∀ e : Elem, alookup E p.1 = some e → e.1 ≠ "Drift" :=
            fun p hp => hty p (List.mem_cons_of_mem _ hp)
          have hfE' : ∀ k, n ≤ k → k < n + rest.length → alookup E (driftName k) = none :=
            fun k hk hk2 => hfE k hk (by simp only [List.length_cons]; omega)
          have hfS' : ∀ p ∈ rest, ∀ k, n ≤ k → k < n + rest.length → p.1 ≠ driftName k :=
            fun p hp k hk hk2 => hfS p (List.mem_cons_of_mem _ hp) k hk
              (by simp only [List.length_cons]; omega)
          obtain ⟨names, hok, res, hres, hfa⟩ := ih n (ex + l) E hclass hty' hfE' hfS'
          have hS : (seq2lineAux ((elem, pos) :: rest) n ex E).2 =
              (seq2lineAux rest n (ex + l) E).2 := by
            simp only [seq2lineAux, h1, h2]
            rw [if_pos hb1]
          refine ⟨elem :: names, ?_, (elem, ex + l / 2) :: res, ?_, ?_⟩
          · simp only [seq2lineAux, h1, h2]
            rw [if_pos hb1]
            simp only [hok, Except.map]
          · rw [hS]
            have hpre : alookup (seq2lineAux rest n (ex + l) E).2 elem = alookup E elem :=
              seq2lineAux_frame rest n (ex + l) E elem fun k hk hk2 =>
                hShead k hk (by omega)
            simp only [line2seqAux, hpre, h1, h2]
            rw [if_neg htyhead, hres]
            rfl
          · exact List.Forall₂.cons
              ⟨rfl, by
                rw [show ex + l / 2 - pos = -(pos - l / 2 - ex) by ring, abs_neg]
                exact hb1.le⟩ hfa
        · rw [if_neg hb1] at hclass
          by_cases hb3 : threshold < pos - l / 2 - ex
          · -- drift branch
            rw [if_pos hb3] at hclass
            have hb2 : ¬ pos - l / 2 - ex < -threshold := by
              have := threshold_pos
              intro hc
              linarith
            have hndn : ∀ q ∈ rest, q.1 ≠ driftName n := fun q hq =>
              hfS q (List.mem_cons_of_mem _ hq) n (le_refl n)
                (by simp only [List.length_cons]; omega)
            have helnd : elem ≠ driftName n := hShead n (le_refl n) (by omega)
            have hcongr : seqClassOk rest (ex + (pos - l / 2 - ex) + l)
                (dictInsert E (driftName n) ("Drift", [("length", pos - l / 2 - ex)])) =
                seqClassOk rest (ex + (pos - l / 2 - ex) + l) E :=
              seqClassOk_congr rest _ E _ fun q hq =>
                alookup_dictInsert_ne E (driftName n) q.1 _ (hndn q hq)
            have hty1 : ∀ p ∈ rest, ∀ e : Elem,
                alookup (dictInsert E (driftName n)
                  ("Drift", [("length", pos - l / 2 - ex)])) p.1 = some e →
                e.1 ≠ "Drift" := by
              intro p hp e he
              rw [alookup_dictInsert_ne E (driftName n) p.1 _ (hndn p hp)] at he
              exact hty p (List.mem_cons_of_mem _ hp) e he
            have hfE1 : ∀ k, n + 1 ≤ k → k < n + 1 + rest.length →
                alookup (dictInsert E (driftName n)
                  ("Drift", [("length", pos - l / 2 - ex)])) (driftName k) = none := by
              intro k hk hk2
              rw [alookup_dictInsert_ne E (driftName n) (driftName k) _
                (fun hh => by have := driftName_injective k n hh; omega)]
              exact hfE k (by omega) (by simp only [List.length_cons]; omega)
            have hfS1 : ∀ p ∈ rest, ∀ k, n + 1 ≤ k → k < n + 1 + rest.length →
                p.1 ≠ driftName k :=
              fun p hp k hk hk2 => hfS p (List.mem_cons_of_mem _ hp) k (by omega)
                (by simp only [List.length_cons]; omega)
            obtain ⟨names, hok, res, hres, hfa⟩ :=
              ih (n + 1) (ex + (pos - l / 2 - ex) + l)
                (dictInsert E (driftName n) ("Drift", [("length", pos - l / 2 - ex)]))
                (by rw [hcongr]; exact hclass) hty1 hfE1 hfS1
            have hS : (seq2lineAux ((elem, pos) :: rest) n ex E).2 =
                (seq2lineAux rest (n + 1) (ex + (pos - l / 2 - ex) + l)
                  (dictInsert E (driftName n)
                    ("Drift", [("length", pos - l / 2 - ex)]))).2 := by
              simp only [seq2lineAux, h1, h2]
              rw [if_neg hb1, if_neg hb2, if_pos hb3]
            have hframe : ∀ s : String,
                (∀ k, n + 1 ≤ k → k < n + 1 + rest.length → s ≠ driftName k) →
                alookup (seq2lineAux rest (n + 1) (ex + (pos - l / 2 - ex) + l)
                  (dictInsert E (driftName n)
                    ("Drift", [("length", pos - l / 2 - ex)]))).2 s =
                alookup (dictInsert E (driftName n)
                  ("Drift", [("length", pos - l / 2 - ex)])) s :=
              fun s hsafe => seq2lineAux_frame rest (n + 1) _ _ s hsafe
            refine ⟨driftName n :: elem :: names, ?_,
              (elem, ex + (pos - l / 2 - ex) + l / 2) :: res, ?_, ?_⟩
            · simp only [seq2lineAux, h1, h2]
              rw [if_neg hb1, if_neg hb2, if_pos hb3]
              simp only [hok, Except.map]
            · rw [hS]
              have hnd : alookup (seq2lineAux rest (n + 1) (ex + (pos - l / 2 - ex) + l)
                  (dictInsert E (driftName n)
                    ("Drift", [("length", pos - l / 2 - ex)]))).2 (driftName n) =
                  some ("Drift", [("length", pos - l / 2 - ex)]) := by
                rw [hframe (driftName n)
                  (fun k hk _ hh => by have := driftName_injective n k hh; omega)]
                exact alookup_dictInsert_self E (driftName n) _
              have hel : alookup (seq2lineAux rest (n + 1) (ex + (pos - l / 2 - ex) + l)
                  (dictInsert E (driftName n)
                    ("Drift", [("length", pos - l / 2 - ex)]))).2 elem =
                  some (ty, attrs) := by
                rw [hframe elem (fun k hk hk2 => hShead k (by omega) (by omega))]
                rw [alookup_dictInsert_ne E (driftName n) elem _ helnd]
                exact h1
              simp only [line2seqAux, hnd, hel, h2,
                show alookup [("length", pos - l / 2 - ex)] "length" =
                  some (pos - l / 2 - ex) from by simp [alookup], if_true]
              rw [if_neg htyhead, hres]
              rfl
            · exact List.Forall₂.cons
                ⟨rfl, by
                  rw [show ex + (pos - l / 2 - ex) + l / 2 - pos = 0 by ring, abs_zero]
                  exact threshold_pos.le⟩ hfa
          · rw [if_neg hb3] at hclass
            cases hclass

/-- Every sequence name resolves in the elements table to a type other
than canonical Drift. -/
def noDriftTypes (seq : List (String × Rat)) (els : Elements) : Bool :=
  seq.all fun p =>
    match alookup els p.1 with
    | some e => !(e.1 == "Drift")
    | none => false

/-- None of the synthetic names `drift_0 … drift_(n-1)` is bound in the
elements table. -/
def driftNamesFresh (els : Elements) (n : Nat) : Bool :=
  (List.range n).all fun k => (alookup els (driftName k)).isNone

/-- None of the sequence names is one of the synthetic names
`drift_0 … drift_(n-1)`. -/
def namesAvoidDriftNames (seq : List (String × Rat)) (n : Nat) : Bool :=
  seq.all fun p => (List.range n).all fun k => !(p.1 == driftName k)

/-- C2 (amended): on a sequence in which every pair falls strictly into
the adjacent branch (`|gap| < 1e-6`) or the drift branch (`gap > 1e-6`) —
so in particular no pair triggers the overlap branch and no pair has gap
exactly `±1e-6`, where the loop silently drops the element — and whose
names are not typed `Drift` and do not collide with the synthetic drift
names (which must also be absent from the elements table), `seq2line`
followed by `line2seq` on its output with the drift-augmented elements
table reproduces the original `(name, position)` list: the same names in
the same order, each reconstructed centre within `1e-6` of the original
(exactly equal for pairs in the drift branch). -/
theorem c2_seq2line_line2seq_roundtrip (seq : List (String × Rat)) (els : Elements)
    (h1 : seqClassOk seq 0 els = true)
    (h2 : noDriftTypes seq els = true)
    (h3 : driftNamesFresh els seq.length = true)
    (h4 : namesAvoidDriftNames seq seq.length = true) :
    ∃ names, (seq2line seq els).1 = Except.ok names ∧
      ∃ res, line2seq names (seq2line seq els).2 = Except.ok res ∧
        List.Forall₂ (fun p q => p.1 = q.1 ∧ |q.2 - p.2| ≤ threshold) seq res := by
  have h2' : ∀ p ∈ seq, ∀ e : Elem, alookup els p.1 = some e → e.1 ≠ "Drift" := by
    rw [noDriftTypes, List.all_eq_true] at h2
    intro p hp e he
    have := h2 p hp
    rw [he] at this
    simpa using this
  have h3' : ∀ k, 0 ≤ k → k < 0 + seq.length → alookup els (driftName k) = none := by
    rw [driftNamesFresh, List.all_eq_true] at h3
    intro k _ hk
    have := h3 k (List.mem_range.mpr (by omega))
    simpa [Option.isNone_iff_eq_none] using this
  have h4' : ∀ p ∈ seq, ∀ k, 0 ≤ k → k < 0 + seq.length → p.1 ≠ driftName k := by
    rw [namesAvoidDriftNames, List.all_eq_true] at h4
    intro p hp k _ hk
    have := (List.all_eq_true.mp (h4 p hp)) k (List.mem_range.mpr (by omega))
    simpa using this
  exact seq2line_roundtrip_aux seq 0 0 els h1 h2' h3' h4'

/-- C2 witness: the round trip applied to the drifting sequence
`[("A", 5.0), ("B", 15.0)]` over `A.length = 10`, `B.length = 4`. -/
theorem c2_seq2line_line2seq_roundtrip_witness :
    ∃ names, (seq2line [("A", 5), ("B", 15)] elsAB).1 = Except.ok names ∧
      ∃ res, line2seq names (seq2line [("A", 5), ("B", 15)] elsAB).2 = Except.ok res ∧
        List.Forall₂ (fun p q => p.1 = q.1 ∧ |q.2 - p.2| ≤ threshold)
          [("A", 5), ("B", 15)] res :=
  c2_seq2line_line2seq_roundtrip [("A", 5), ("B", 15)] elsAB
    (by norm_num +decide [seqClassOk, alookup, elsAB, threshold])
    (by decide) (by decide) (by decide)

/-- C2 counterexample: a single zero-length element whose entrance gap is
exactly the tolerance `1e-6`.  No pair triggers the overlap branch (the
run returns `ok`), yet none of the three Python branches fires, the
element is silently dropped, and the round trip returns the empty list
instead of reproducing `[("A", 1e-6)]`. -/
theorem c2_boundary_gap_counterexample :
    seq2line [("A", 1 / 1000000)] [("A", ("Quad", [("length", 0)]))] =
      (Except.ok [], [("A", ("Quad", [("length", 0)]))]) ∧
    line2seq [] [("A", ("Quad", [("length", 0)]))] = Except.ok [] ∧
    ¬ List.Forall₂ (fun (p q : String × Rat) => p.1 = q.1 ∧ |q.2 - p.2| ≤ threshold)
      [("A", 1 / 1000000)] [] := by
  refine ⟨?_, rfl, by simp⟩
  have habs : |(1 : Rat) / 1000000| = 1 / 1000000 := abs_of_pos (by norm_num)
  norm_num [seq2line, seq2lineAux, alookup, threshold, habs]

/-! ## Locating one element inside the _map_names run (C7) -/

theorem mapElemsAux_append (nm : NameMap) :
    ∀ (ks1 ks2 : List String) (raw out : Elements) (ws : List Warning),
    mapElemsAux nm (ks1 ++ ks2) raw out ws =
      mapElemsAux nm ks2 (mapElemsAux nm ks1 raw out ws).1
        (mapElemsAux nm ks1 raw out ws).2.1 (mapElemsAux nm ks1 raw out ws).2.2 := by
  intro ks1
  induction ks1 with
  | nil => intro ks2 raw out ws; rfl
  | cons k rest ih =>
    intro ks2 raw out ws
    simp only [List.cons_append, mapElemsAux]
    exact ih ks2 _ _ _

/-- The canonical entry produced by one `_map_names` step is keyed by the
processed name. -/
theorem processElem_entry_key (nm : NameMap) (raw : Elements) (name : String) :
    ∀ e, (processElem nm raw name).2.1 = some e → e.1 = name := by
  intro e
  cases h1 : alookup raw name with
  | none => simp [processElem, h1]
  | some p =>
    obtain ⟨otype, oattrs⟩ := p
    cases h2 : alookup nm (resolveAlias raw otype oattrs).1 with
    | none =>
      simp only [processElem, h1, h2]
      intro he
      cases he
      rfl
    | some ljt =>
      simp only [processElem, h1, h2]
      split <;> (intro he; cases he; rfl)

theorem mapAttrs_foldl_warning_shape (nm : NameMap) (name : String) :
    ∀ (rattrs : Attrs) (acc : Attrs × List Warning) (w : Warning),
    w ∈ (rattrs.foldl
      (fun (p : Attrs × List Warning) kv =>
        match alookup nm kv.1 with
        | some k2 => (dictInsert p.1 k2 kv.2, p.2)
        | none => (p.1, p.2 ++ [Warning.unknownAttribute kv.1 name])) acc).2 →
    w ∈ acc.2 ∨ ∃ a, w = Warning.unknownAttribute a name := by
  intro rattrs
  induction rattrs with
  | nil => intro acc w hw; left; exact hw
  | cons kv rest ih =>
    intro acc w hw
    simp only [List.foldl_cons] at hw
    cases hk : alookup nm kv.1 with
    | some k2 =>
      simp only [hk] at hw
      exact ih (dictInsert acc.1 k2 kv.2, acc.2) w hw
    | none =>
      simp only [hk] at hw
      rcases ih (acc.1, acc.2 ++ [Warning.unknownAttribute kv.1 name]) w hw with hin | hex
      · rcases List.mem_append.mp hin with h | h
        · left; exact h
        · right; exact ⟨kv.1, by simpa using h⟩
      · right; exact hex

/-- Every warning emitted while processing one element mentions that
element's name (as the element of an `UnknownElementTypeWarning` or as
the owner of an `UnknownAttributeWarning`). -/
theorem processElem_warning_shape (nm : NameMap) (raw : Elements) (name : String) :
    ∀ w ∈ (processElem nm raw name).2.2,
      (∃ t, w = Warning.unknownElementType name t) ∨
      (∃ a, w = Warning.unknownAttribute a name) := by
  intro w
  cases h1 : alookup raw name with
  | none => simp [processElem, h1]
  | some p =>
    obtain ⟨otype, oattrs⟩ := p
    cases h2 : alookup nm (resolveAlias raw otype oattrs).1 with
    | none =>
      simp only [processElem, h1, h2]
      intro hw
      left
      exact ⟨_, by simpa using hw⟩
    | some ljt =>
      simp only [processElem, h1, h2]
      split
      · simp
      · intro hw
        rcases mapAttrs_foldl_warning_shape nm name _ ([], []) w hw with hin | hex
        · cases hin
        · right; exact hex

/-- Steps for other element names do not touch the canonical entry at
`name`. -/
theorem mapElemsAux_out_lookup (nm : NameMap) (name : String) :
    ∀ (ks : List String) (raw out : Elements) (ws : List Warning),
    name ∉ ks →
    alookup (mapElemsAux nm ks raw out ws).2.1 name = alookup out name := by
  intro ks
  induction ks with
  | nil => intro raw out ws _; rfl
  | cons k rest ih =>
    intro raw out ws hk
    have hkn : k ≠ name := fun h => hk (h ▸ List.mem_cons_self _ _)
    have hrest : name ∉ rest := fun h => hk (List.mem_cons_of_mem _ h)
    simp only [mapElemsAux]
    rw [ih _ _ _ hrest]
    cases he : (processElem nm raw k).2.1 with
    | none => rfl
    | some e =>
      have := processElem_entry_key nm raw k e he
      exact alookup_dictInsert_ne out e.1 name e.2 (this ▸ Ne.symm hkn)

/-- Steps for other element names contribute no `UnknownElementTypeWarning`
for `name`. -/
theorem mapElemsAux_countP_other (nm : NameMap) (name t : String) :
    ∀ (ks : List String) (raw out : Elements) (ws : List Warning),
    name ∉ ks →
    ((mapElemsAux nm ks raw out ws).2.2.countP
      (fun w => decide (w = Warning.unknownElementType name t))) =
    ws.countP (fun w => decide (w = Warning.unknownElementType name t)) := by
  intro ks
  induction ks with
  | nil => intro raw out ws _; rfl
  | cons k rest ih =>
    intro raw out ws hk
    have hkn : k ≠ name := fun h => hk (h ▸ List.mem_cons_self _ _)
    have hrest : name ∉ rest := fun h => hk (List.mem_cons_of_mem _ h)
    simp only [mapElemsAux]
    rw [ih _ _ _ hrest, List.countP_append]
    have hz : ((processElem nm raw k).2.2.countP
        (fun w => decide (w = Warning.unknownElementType name t))) = 0 := by
      rw [List.countP_eq_zero]
      intro w hw
      rcases processElem_warning_shape nm raw k w hw with ⟨t', ht⟩ | ⟨a, ha⟩
      · subst ht; simp [hkn]
      · subst ha; simp
    omega

/-- C7: for a raw-record element whose alias-resolved foreign type has no
entry in the name map (evaluated against the raw state reached when the
element is processed), `_map_names` emits exactly one
`UnknownElementTypeWarning` for it and maps it to canonical
`["Drift", {"length": L-or-0}]` with `L` read from its (merged) foreign
attributes, translating no other attribute. -/
theorem c7_unknown_type_drift_fallback (nm : NameMap) (record : RawRecord)
    (pre post : List String) (name otype : String) (oattrs : Attrs)
    (hkeys : record.elements.map Prod.fst = pre ++ name :: post)
    (hnodup : (record.elements.map Prod.fst).Nodup)
    (hlook : alookup (mapElemsAux nm pre record.elements [] []).1 name =
      some (otype, oattrs))
    (hunmapped : alookup nm
      (resolveAlias (mapElemsAux nm pre record.elements [] []).1 otype oattrs).1 =
      none) :
    alookup (mapNamesElems record nm) name =
      some ("Drift", [("length",
        (alookup (resolveAlias (mapElemsAux nm pre record.elements [] []).1
          otype oattrs).2 "L").getD 0)]) ∧
    ((mapNamesWarnings record nm).countP
      (fun w => decide (w = Warning.unknownElementType name
        (resolveAlias (mapElemsAux nm pre record.elements [] []).1
          otype oattrs).1))) = 1 := by
  have hnpre : name ∉ pre := by
    rw [hkeys] at hnodup
    have := (List.nodup_append.mp hnodup).2.2
    intro hmem
    exact this hmem (List.mem_cons_self _ _)
  have hnpost : name ∉ post := by
    rw [hkeys] at hnodup
    have := ((List.nodup_append.mp hnodup).2.1)
    exact (List.nodup_cons.mp this).1
  have hstep21 : (processElem nm (mapElemsAux nm pre record.elements [] []).1 name).2.1 =
      some (name, ("Drift", [("length",
        (alookup (resolveAlias (mapElemsAux nm pre record.elements [] []).1
          otype oattrs).2 "L").getD 0)])) := by
    simp only [processElem, hlook, hunmapped]
  have hstep22 : (processElem nm (mapElemsAux nm pre record.elements [] []).1 name).2.2 =
      [Warning.unknownElementType name
        (resolveAlias (mapElemsAux nm pre record.elements [] []).1 otype oattrs).1] := by
    simp only [processElem, hlook, hunmapped]
  have hrun : mapElemsAux nm (record.elements.map Prod.fst) record.elements [] [] =
      mapElemsAux nm post
        (processElem nm (mapElemsAux nm pre record.elements [] []).1 name).1
        (dictInsert (mapElemsAux nm pre record.elements [] []).2.1 name
          ("Drift", [("length",
            (alookup (resolveAlias (mapElemsAux nm pre record.elements [] []).1
              otype oattrs).2 "L").getD 0)]))
        ((mapElemsAux nm pre record.elements [] []).2.2 ++
          [Warning.unknownElementType name
            (resolveAlias (mapElemsAux nm pre record.elements [] []).1
              otype oattrs).1]) := by
    rw [hkeys, mapElemsAux_append]
    simp only [mapElemsAux, hstep21, hstep22]
  constructor
  · rw [mapNamesElems, hrun, mapElemsAux_out_lookup nm name post _ _ _ hnpost]
    exact alookup_dictInsert_self _ name _
  · rw [mapNamesWarnings, hrun, mapElemsAux_countP_other nm name _ post _ _ _ hnpost,
      List.countP_append, mapElemsAux_countP_other nm name _ pre _ _ _ hnpre]
    simp [List.countP_cons]

/-- A raw record with a single element whose foreign type has no entry in
the name map and which has no attributes. -/
def recUnknownType : RawRecord :=
  { title := none, root := none,
    elements := [("X", ("WEIRD", []))],
    lattices := [("l", LatVal.line ["X"])], commands := [] }

/-- C7 witness: the fallback theorem applied to a concrete element of
unmapped foreign type with no `L` attribute: canonical
`["Drift", {"length": 0}]` plus exactly one diagnostic. -/
theorem c7_unknown_type_drift_fallback_witness :
    alookup (mapNamesElems recUnknownType nmEx) "X" =
      some ("Drift", [("length",
        (alookup (resolveAlias (mapElemsAux nmEx [] recUnknownType.elements [] []).1
          "WEIRD" []).2 "L").getD 0)]) ∧
    ((mapNamesWarnings recUnknownType nmEx).countP
      (fun w => decide (w = Warning.unknownElementType "X"
        (resolveAlias (mapElemsAux nmEx [] recUnknownType.elements [] []).1
          "WEIRD" []).1))) = 1 :=
  c7_unknown_type_drift_fallback nmEx recUnknownType [] [] "X" "WEIRD" []
    rfl (by decide) rfl rfl

end LatticeConverter
